import Mathlib

/-!
Verification of the EduCoin classroom ledger engine (`src/app.py`, class
`Blockchain`). The Python class is shallowly embedded: blocks, transactions
and the engine state become Lean structures; the mutating methods become
state-passing functions; Python exceptions (the `KeyError` reachable from
`self.balances[sender] -= amount` and the `IndexError` reachable from
`self.chain[-1]`) are modelled as an explicit `error` outcome / `none`.

The SHA-256 digest over the `sort_keys` JSON encoding of a block
(`Blockchain.hash`) is abstracted as a parameter `H : BlockData → String`:
the digest input is the block dictionary with its `"hash"` key popped, which
is exactly the `BlockData` part of a `Block`, and every property below is
proved for an arbitrary such digest (Python float timestamps and the SHA-256
compression function are outside a shallow embedding; no claim depends on
the concrete digest, only on which fields feed it and on its determinism,
which any Lean function has).
-/

namespace EduCoin

/-- A pending or sealed transaction: the dict built at app.py line 42.
The `"teacher"` key is added only when the `teacher` argument is truthy
(non-`None`, non-empty), so a falsy argument is stored as `none`. -/
structure Tx where
  sender : String
  recipient : String
  amount : Int
  teacher : Option String
deriving DecidableEq

/-- The fields of a block that feed the digest: the block dict of app.py
lines 24-30, before the `"hash"` key is set (equivalently, after
`block_copy.pop("hash", None)` in `Blockchain.hash`). The Python timestamp
is `time.time()`; it is threaded in as an explicit clock value. -/
structure BlockData where
  index : Nat
  timestamp : Nat
  transactions : List Tx
  proof : Int
  previous_hash : String
deriving DecidableEq

/-- A sealed block: its digest-relevant fields plus the stored `"hash"`. -/
structure Block extends BlockData where
  hash : String
deriving DecidableEq

instance : Inhabited Block := ⟨⟨⟨0, 0, [], 0, ""⟩, ""⟩⟩

/-- An entry of `reward_history` (app.py line 55). The `teacher` field stores
the raw argument, even when falsy. -/
structure RewardEntry where
  teacher : Option String
  student : String
  amount : Int
deriving DecidableEq

/-- An entry of `transfer_history` (app.py line 57). `from` is a Lean
keyword, hence `from_`. -/
structure TransferEntry where
  from_ : String
  to_ : String
  amount : Int
deriving DecidableEq

/-- The mutable state of a `Blockchain` instance (app.py lines 15-19). -/
structure BCState where
  chain : List Block
  pending_transactions : List Tx
  balances : List (String × Int)
  reward_history : List RewardEntry
  transfer_history : List TransferEntry
deriving DecidableEq

/-- Python dict lookup on an association list (first matching key). -/
def dlookup : List (String × Int) → String → Option Int
  | [], _ => none
  | (k', v) :: rest, k => if k' = k then some v else dlookup rest k

/-- Python `d.get(k, dflt)`. -/
def dget (m : List (String × Int)) (k : String) (d : Int) : Int :=
  (dlookup m k).getD d

/-- Python `d[k] = v`: overwrite the binding if present, else append. -/
def dset : List (String × Int) → String → Int → List (String × Int)
  | [], k, v => [(k, v)]
  | (k', v') :: rest, k, v =>
      if k' = k then (k, v) :: rest else (k', v') :: dset rest k v

/-- Sum of all balances in the table. -/
def sumBal (m : List (String × Int)) : Int := (m.map Prod.snd).sum

/-- Python truthiness of an optional string: `None` and `""` are falsy. -/
def truthyStr (s : Option String) : Bool := s.getD "" ≠ ""

/-- Result of `Blockchain.new_transaction`: `False`, the next block index,
or an uncaught exception (`KeyError` at line 50 / `IndexError` at line 70). -/
inductive TxOutcome where
  | fail : TxOutcome
  | ok : Nat → TxOutcome
  | error : TxOutcome
deriving DecidableEq

/-- The transaction dict of app.py lines 42-44: the `"teacher"` key is only
present when the argument is truthy. -/
def mkTx (sender recipient : String) (amount : Int) (teacher : Option String) : Tx :=
  ⟨sender, recipient, amount, if truthyStr teacher then teacher else none⟩

/-- Line 46: `self.pending_transactions.append(tx)`. -/
def appendPending (st : BCState) (tx : Tx) : BCState :=
  { st with pending_transactions := st.pending_transactions ++ [tx] }

/-- Line 51: `self.balances[recipient] = self.balances.get(recipient, 0) + amount`. -/
def creditBal (st : BCState) (recipient : String) (amount : Int) : BCState :=
  { st with balances := dset st.balances recipient (dget st.balances recipient 0 + amount) }

/-- Lines 54-57: classify the submission into exactly one history. -/
def recordHist (st : BCState) (sender recipient : String) (amount : Int)
    (teacher : Option String) : BCState :=
  if sender = "Teacher" then
    { st with reward_history := st.reward_history ++ [⟨teacher, recipient, amount⟩] }
  else
    { st with transfer_history := st.transfer_history ++ [⟨sender, recipient, amount⟩] }

/-- Line 59: `return self.last_block["index"] + 1`; `self.chain[-1]` on an
empty chain would raise `IndexError`. -/
def finishTx (st : BCState) : TxOutcome × BCState :=
  match st.chain.getLast? with
  | some b => (TxOutcome.ok (b.index + 1), st)
  | none => (TxOutcome.error, st)

/-- Lines 51-59 of `new_transaction`, after the pending append and the
optional sender debit. -/
def creditAndRecord (st : BCState) (sender recipient : String) (amount : Int)
    (teacher : Option String) : TxOutcome × BCState :=
  finishTx (recordHist (creditBal st recipient amount) sender recipient amount teacher)

/-- `Blockchain.new_transaction` (app.py lines 36-59). The guard at lines
38-40 returns `False` before any mutation. On the non-issuer path the debit
`self.balances[sender] -= amount` (line 50) raises `KeyError` when the
sender has no balance entry; at that point the transaction is already in the
pending buffer, which the error state reflects. -/
def new_transaction (st : BCState) (sender recipient : String) (amount : Int)
    (teacher : Option String) : TxOutcome × BCState :=
  if sender ≠ "Teacher" ∧ dget st.balances sender 0 < amount then
    (TxOutcome.fail, st)
  else if sender = "Teacher" then
    creditAndRecord (appendPending st (mkTx sender recipient amount teacher))
      sender recipient amount teacher
  else
    match dlookup st.balances sender with
    | none => (TxOutcome.error, appendPending st (mkTx sender recipient amount teacher))
    | some v =>
        creditAndRecord
          { appendPending st (mkTx sender recipient amount teacher) with
              balances := dset st.balances sender (v - amount) }
          sender recipient amount teacher

/-- `Blockchain.hash` (app.py lines 61-66): copy the block dict, pop the
`"hash"` key, digest the canonical field-sorted encoding of the rest. With
the digest abstracted as `H`, this is `H` applied to the hash-free part. -/
def hashBlock (H : BlockData → String) (b : Block) : String := H b.toBlockData

/-- The block dict of app.py lines 24-30, before its `"hash"` key is set. -/
def sealBlockData (st : BCState) (proof : Int) (ts : Nat) (p : String) : BlockData :=
  ⟨st.chain.length + 1, ts, st.pending_transactions, proof, p⟩

/-- `Blockchain.new_block` (app.py lines 22-34). `previous_hash or
self.hash(self.chain[-1])` uses Python truthiness; `self.chain[-1]` on an
empty chain would raise `IndexError`, modelled as `none`. The pending
transactions are copied by value into the block, the buffer is cleared, the
`"hash"` key is computed over the other fields and the block is appended. -/
def new_block (H : BlockData → String) (st : BCState) (proof : Int) (ts : Nat)
    (previous_hash : Option String) : Option (Block × BCState) :=
  match (if truthyStr previous_hash then previous_hash
         else (st.chain.getLast?).map (hashBlock H)) with
  | none => none
  | some p =>
      some (⟨sealBlockData st proof ts p, H (sealBlockData st proof ts p)⟩,
            { st with pending_transactions := [],
                      chain := st.chain ++ [⟨sealBlockData st proof ts p, H (sealBlockData st proof ts p)⟩] })

/-- The state with all five containers empty (app.py lines 15-19). -/
def emptyState : BCState := ⟨[], [], [], [], []⟩

/-- `Blockchain.__init__` (app.py lines 14-20): empty containers, then
`self.new_block(proof=100, previous_hash="1")` seals the genesis block.
`ts` is the `time.time()` value observed by that call. The `none` fallback
is unreachable because `"1"` is truthy. -/
def init (H : BlockData → String) (ts : Nat) : BCState :=
  match new_block H emptyState 100 ts (some "1") with
  | some (_, st) => st
  | none => emptyState

/-- The loop body of `is_chain_valid` (app.py lines 72-80) over the chain:
for each adjacent pair check the stored-hash link, then the recomputed hash
of the later block, stopping at the first mismatch. -/
def chainOk (H : BlockData → String) : List Block → Bool
  | [] => true
  | [_] => true
  | a :: b :: rest =>
      if b.previous_hash ≠ a.hash then false
      else if b.hash ≠ hashBlock H b then false
      else chainOk H (b :: rest)

/-- `Blockchain.is_chain_valid` (app.py lines 72-80): a pure read-only scan. -/
def is_chain_valid (H : BlockData → String) (st : BCState) : Bool :=
  chainOk H st.chain

/-- The two checks `is_chain_valid` performs at position `i ≥ 1` of the
chain: `chain[i]["previous_hash"] == chain[i-1]["hash"]` and
`chain[i]["hash"] == self.hash(chain[i])`. -/
def linkedAt (H : BlockData → String) (c : List Block) (i : Nat) : Prop :=
  (c.getD i default).previous_hash = (c.getD (i - 1) default).hash ∧
  (c.getD i default).hash = hashBlock H (c.getD i default)

instance (H : BlockData → String) (c : List Block) (i : Nat) :
    Decidable (linkedAt H c i) := by
  unfold linkedAt; infer_instance

/-- An engine operation issued by a caller: a `new_transaction` submission
or a `new_block` sealing (with the clock value it observes). -/
inductive Op where
  | tx (sender recipient : String) (amount : Int) (teacher : Option String)
  | sealOp (proof : Int) (ts : Nat) (previous_hash : Option String)
deriving DecidableEq

/-- Run one operation, keeping only successful outcomes: a submission must
return a next-block index (not `False`, not an exception) and a sealing must
not raise. -/
def runOp (H : BlockData → String) (st : BCState) : Op → Option BCState
  | Op.tx s r a t =>
      match new_transaction st s r a t with
      | (TxOutcome.ok _, st') => some st'
      | _ => none
  | Op.sealOp p ts ph => (new_block H st p ts ph).map Prod.snd

/-- Run a sequence of operations, all of which must succeed. -/
def runOps (H : BlockData → String) : BCState → List Op → Option BCState
  | st, [] => some st
  | st, o :: os =>
      match runOp H st o with
      | some st' => runOps H st' os
      | none => none

/-- Amount a single operation issues from `"Teacher"`. -/
def opAmountTeacher : Op → Int
  | Op.tx s _ a _ => if s = "Teacher" then a else 0
  | Op.sealOp _ _ _ => 0

/-- Total amount issued by `"Teacher"` across a sequence of submissions. -/
def teacherIssued (ops : List Op) : Int := (ops.map opAmountTeacher).sum

/-- Whether an operation's submitted amount is positive (sealings trivially
qualify). -/
def opPos : Op → Bool
  | Op.tx _ _ a _ => decide (0 < a)
  | Op.sealOp _ _ _ => true

/-- Whether an operation avoids `"Teacher"` as the recipient. -/
def opRecipNotTeacher : Op → Bool
  | Op.tx _ r _ _ => decide (r ≠ "Teacher")
  | Op.sealOp _ _ _ => true

/-- Every balance entry in the table is non-negative. -/
def AllNonNeg (m : List (String × Int)) : Prop := ∀ p ∈ m, 0 ≤ p.2

/-- A concrete executable digest used to instantiate the abstract digest
parameter in witnesses. -/
def demoHash : BlockData → String := fun d => "b" ++ toString d.index

/-- The scenario of spec §8: Teacher issues 100 to Alice, seal, Alice
transfers 40 to Bob, seal. -/
def opsDemo : List Op :=
  [Op.tx "Teacher" "Alice" 100 (some "Ms"), Op.sealOp 123 1 none,
   Op.tx "Alice" "Bob" 40 (some "Ms"), Op.sealOp 123 2 none]

/-- The state reached by running the demo scenario. -/
def demoFinal : BCState := (runOps demoHash (init demoHash 0) opsDemo).getD emptyState

/-- The single-operation run in which Teacher issues a negative amount. -/
def negRun : Option BCState :=
  runOps demoHash (init demoHash 0) [Op.tx "Teacher" "Bob" (-5) none]

/-- The state reached by that run. -/
def negRunState : BCState := negRun.getD emptyState

/-- The single-operation run in which Teacher rewards the identifier
`"Teacher"` itself. -/
def teacherRecipRun : Option BCState :=
  runOps demoHash (init demoHash 0) [Op.tx "Teacher" "Teacher" 5 (some "Ms")]

/-- The state reached by that run. -/
def teacherRecipState : BCState := teacherRecipRun.getD emptyState

/-- A genesis-like block whose stored hash disagrees with its `demoHash`
recomputation (`demoHash` would give `"b1"`). -/
def badGenesis : Block := ⟨⟨1, 0, [], 100, "1"⟩, "bogus"⟩

/-- A block correctly chained onto `badGenesis`'s stored hash. -/
def afterBadGenesis : Block := ⟨⟨2, 0, [], 123, "bogus"⟩, "b2"⟩

/-- A state whose chain has a corrupted genesis hash but intact adjacent
pairs. -/
def badGenesisState : BCState := ⟨[badGenesis, afterBadGenesis], [], [], [], []⟩

/-- The block and state produced by sealing the empty pending buffer of a
fresh engine. -/
def demoSeal : Block × BCState :=
  (new_block demoHash (init demoHash 0) 123 1 none).getD (⟨⟨0, 0, [], 0, ""⟩, ""⟩, emptyState)

/-- The outcome and state of a teacher reward on a fresh engine. -/
def demoTx : TxOutcome × BCState :=
  new_transaction (init demoHash 0) "Teacher" "Alice" 100 (some "Ms")

theorem dlookup_mem {m : List (String × Int)} {k : String} {v : Int}
    (h : dlookup m k = some v) : (k, v) ∈ m := by
  induction m with
  | nil => simp [dlookup] at h
  | cons p rest ih =>
      obtain ⟨k', v'⟩ := p
      by_cases hk : k' = k
      · subst hk
        simp [dlookup] at h
        simp [h]
      · simp [dlookup, hk] at h
        exact List.mem_cons_of_mem _ (ih h)

theorem dget_eq {m : List (String × Int)} {k : String} {v : Int}
    (h : dlookup m k = some v) : dget m k 0 = v := by
  simp [dget, h]

theorem dget_of_none {m : List (String × Int)} {k : String}
    (h : dlookup m k = none) : dget m k 0 = 0 := by
  simp [dget, h]

theorem dlookup_some_of_dget_pos {m : List (String × Int)} {k : String}
    (h : 0 < dget m k 0) : ∃ v, dlookup m k = some v ∧ dget m k 0 = v := by
  cases hl : dlookup m k with
  | none => rw [dget_of_none hl] at h; omega
  | some v => exact ⟨v, rfl, dget_eq hl⟩

theorem sumBal_dset (m : List (String × Int)) (k : String) (v : Int) :
    sumBal (dset m k v) = sumBal m - dget m k 0 + v := by
  induction m with
  | nil => simp [dset, sumBal, dget, dlookup]
  | cons p rest ih =>
      obtain ⟨k', v'⟩ := p
      by_cases hk : k' = k
      · subst hk
        simp [dset, sumBal, dget, dlookup]
        omega
      · simp [dset, hk, sumBal, dget, dlookup] at ih ⊢
        omega

theorem mem_dset {m : List (String × Int)} {k : String} {v : Int} {p : String × Int}
    (h : p ∈ dset m k v) : p ∈ m ∨ p = (k, v) := by
  induction m with
  | nil => simp [dset] at h; simp [h]
  | cons q rest ih =>
      obtain ⟨k', v'⟩ := q
      by_cases hk : k' = k
      · subst hk
        simp [dset] at h
        rcases h with h | h
        · exact Or.inr h
        · exact Or.inl (List.mem_cons_of_mem _ h)
      · simp [dset, hk] at h
        rcases h with h | h
        · simp [h]
        · rcases ih h with h' | h'
          · exact Or.inl (List.mem_cons_of_mem _ h')
          · exact Or.inr h'

theorem dlookup_dset_ne {m : List (String × Int)} {k k' : String} (v : Int)
    (h : k' ≠ k) : dlookup (dset m k v) k' = dlookup m k' := by
  induction m with
  | nil => simp [dset, dlookup, Ne.symm h]
  | cons q rest ih =>
      obtain ⟨k'', v''⟩ := q
      by_cases hk : k'' = k
      · subst hk
        simp [dset, dlookup, Ne.symm h]
      · simp only [dset, dlookup, if_neg hk]
        by_cases hk' : k'' = k'
        · simp [dlookup, hk']
        · simp [dlookup, hk', ih]

theorem dget_nonneg {m : List (String × Int)} (hm : AllNonNeg m) (k : String) :
    0 ≤ dget m k 0 := by
  cases hl : dlookup m k with
  | none => rw [dget_of_none hl]
  | some v => rw [dget_eq hl]; exact hm _ (dlookup_mem hl)

theorem allNonNeg_dset {m : List (String × Int)} {k : String} {v : Int}
    (hm : AllNonNeg m) (hv : 0 ≤ v) : AllNonNeg (dset m k v) := by
  intro p hp
  rcases mem_dset hp with h | h
  · exact hm _ h
  · rw [h]; exact hv

theorem getLast?_some_of_ne_nil : ∀ {l : List Block}, l ≠ [] → ∃ b, l.getLast? = some b
  | [], h => absurd rfl h
  | [a], _ => ⟨a, rfl⟩
  | _ :: b :: t, _ => by
      rw [List.getLast?_cons_cons]
      exact getLast?_some_of_ne_nil (by simp)

theorem finishTx_snd (st : BCState) : (finishTx st).2 = st := by
  unfold finishTx
  cases hl : st.chain.getLast? <;> rfl

theorem finishTx_ok {st st' : BCState} {i : Nat}
    (h : finishTx st = (TxOutcome.ok i, st')) : st' = st := by
  unfold finishTx at h
  cases hl : st.chain.getLast? with
  | none => rw [hl] at h; simp at h
  | some b => rw [hl] at h; simp at h; exact h.2.symm

theorem finishTx_not_error {st : BCState} (h : st.chain ≠ []) :
    (finishTx st).1 ≠ TxOutcome.error := by
  obtain ⟨b, hb⟩ := getLast?_some_of_ne_nil h
  unfold finishTx
  rw [hb]
  simp

theorem recordHist_balances (st : BCState) (s r : String) (a : Int) (t : Option String) :
    (recordHist st s r a t).balances = st.balances := by
  unfold recordHist
  split <;> rfl

theorem recordHist_chain (st : BCState) (s r : String) (a : Int) (t : Option String) :
    (recordHist st s r a t).chain = st.chain := by
  unfold recordHist
  split <;> rfl

theorem recordHist_pending (st : BCState) (s r : String) (a : Int) (t : Option String) :
    (recordHist st s r a t).pending_transactions = st.pending_transactions := by
  unfold recordHist
  split <;> rfl

theorem recordHist_reward (st : BCState) (s r : String) (a : Int) (t : Option String) :
    (recordHist st s r a t).reward_history
      = if s = "Teacher" then st.reward_history ++ [⟨t, r, a⟩] else st.reward_history := by
  by_cases hT : s = "Teacher" <;> simp [recordHist, hT]

theorem recordHist_transfer (st : BCState) (s r : String) (a : Int) (t : Option String) :
    (recordHist st s r a t).transfer_history
      = if s = "Teacher" then st.transfer_history else st.transfer_history ++ [⟨s, r, a⟩] := by
  by_cases hT : s = "Teacher" <;> simp [recordHist, hT]

theorem creditAndRecord_ok {st st' : BCState} {s r : String} {a : Int}
    {t : Option String} {i : Nat}
    (h : creditAndRecord st s r a t = (TxOutcome.ok i, st')) :
    st'.balances = dset st.balances r (dget st.balances r 0 + a) ∧
    st'.chain = st.chain ∧
    st'.pending_transactions = st.pending_transactions ∧
    st'.reward_history
      = (if s = "Teacher" then st.reward_history ++ [⟨t, r, a⟩] else st.reward_history) ∧
    st'.transfer_history
      = (if s = "Teacher" then st.transfer_history else st.transfer_history ++ [⟨s, r, a⟩]) := by
  unfold creditAndRecord at h
  have hst := finishTx_ok h
  subst hst
  refine ⟨?_, ?_, ?_, ?_, ?_⟩ <;>
    simp [recordHist_balances, recordHist_chain, recordHist_pending,
          recordHist_reward, recordHist_transfer, creditBal]

theorem creditAndRecord_not_error (st : BCState) (s r : String) (a : Int)
    (t : Option String) (h : st.chain ≠ []) :
    (creditAndRecord st s r a t).1 ≠ TxOutcome.error := by
  unfold creditAndRecord
  apply finishTx_not_error
  rw [recordHist_chain]
  simpa [creditBal] using h

theorem new_transaction_ok {st st' : BCState} {s r : String} {a : Int}
    {t : Option String} {i : Nat}
    (h : new_transaction st s r a t = (TxOutcome.ok i, st')) :
    ∃ m1 : List (String × Int),
      ((s = "Teacher" ∧ m1 = st.balances) ∨
        (s ≠ "Teacher" ∧ ∃ v, dlookup st.balances s = some v ∧ a ≤ v ∧
          m1 = dset st.balances s (v - a))) ∧
      st'.balances = dset m1 r (dget m1 r 0 + a) ∧
      st'.chain = st.chain ∧
      st'.pending_transactions = st.pending_transactions ++ [mkTx s r a t] ∧
      st'.reward_history
        = (if s = "Teacher" then st.reward_history ++ [⟨t, r, a⟩] else st.reward_history) ∧
      st'.transfer_history
        = (if s = "Teacher" then st.transfer_history else st.transfer_history ++ [⟨s, r, a⟩]) := by
  unfold new_transaction at h
  by_cases hg : s ≠ "Teacher" ∧ dget st.balances s 0 < a
  · rw [if_pos hg] at h
    simp at h
  · rw [if_neg hg] at h
    by_cases hT : s = "Teacher"
    · rw [if_pos hT] at h
      obtain ⟨hb, hc, hp, hr, htr⟩ := creditAndRecord_ok h
      exact ⟨st.balances, Or.inl ⟨hT, rfl⟩,
        by simpa [appendPending] using hb,
        by simpa [appendPending] using hc,
        by simpa [appendPending] using hp,
        by simpa [appendPending] using hr,
        by simpa [appendPending] using htr⟩
    · rw [if_neg hT] at h
      cases hlk : dlookup st.balances s with
      | none => rw [hlk] at h; simp at h
      | some v =>
          rw [hlk] at h
          obtain ⟨hb, hc, hp, hr, htr⟩ := creditAndRecord_ok h
          have hav : a ≤ v := by
            push_neg at hg
            have := hg hT
            rwa [dget_eq hlk] at this
          exact ⟨dset st.balances s (v - a), Or.inr ⟨hT, v, rfl, hav, rfl⟩,
            by simpa [appendPending] using hb,
            by simpa [appendPending] using hc,
            by simpa [appendPending] using hp,
            by simpa [appendPending] using hr,
            by simpa [appendPending] using htr⟩

theorem new_block_ok {H : BlockData → String} {st st' : BCState} {p : Int} {ts : Nat}
    {ph : Option String} {b : Block}
    (h : new_block H st p ts ph = some (b, st')) :
    st' = { st with pending_transactions := [], chain := st.chain ++ [b] } ∧
    b.hash = hashBlock H b ∧
    b.transactions = st.pending_transactions ∧
    b.index = st.chain.length + 1 := by
  unfold new_block at h
  cases hp : (if truthyStr ph then ph else (st.chain.getLast?).map (hashBlock H)) with
  | none => rw [hp] at h; simp at h
  | some pv =>
      rw [hp] at h
      simp only [Option.some.injEq, Prod.mk.injEq] at h
      obtain ⟨hb, hst⟩ := h
      subst hb
      subst hst
      exact ⟨rfl, rfl, rfl, rfl⟩

theorem chainOk_iff (H : BlockData → String) :
    ∀ c : List Block, chainOk H c = true ↔ ∀ i, i < c.length → 1 ≤ i → linkedAt H c i := by
  intro c
  induction c with
  | nil =>
      simp only [chainOk, List.length_nil, true_iff]
      intro i h1 h2
      omega
  | cons a tl ih =>
      cases tl with
      | nil =>
          simp only [chainOk, List.length_singleton, true_iff]
          intro i h1 h2
          omega
      | cons b rest =>
          constructor
          · intro h i hlen h1
            have hdecomp : (b.previous_hash = a.hash ∧ b.hash = hashBlock H b) ∧
                chainOk H (b :: rest) = true := by
              by_cases h1' : b.previous_hash = a.hash
              · by_cases h2' : b.hash = hashBlock H b
                · refine ⟨⟨h1', h2'⟩, ?_⟩
                  simpa [chainOk, h1', h2'] using h
                · simp [chainOk, h1', h2'] at h
              · simp [chainOk, h1'] at h
            obtain ⟨⟨hp1, hp2⟩, htail⟩ := hdecomp
            rcases i with _ | (_ | j)
            · omega
            · exact ⟨by simpa [linkedAt] using hp1, by simpa [linkedAt] using hp2⟩
            · have hj := (ih.mp htail) (j + 1)
                (by simp only [List.length_cons] at hlen ⊢; omega) (by omega)
              have e1 : j + 2 - 1 = j + 1 := by omega
              have e2 : j + 1 - 1 = j := by omega
              unfold linkedAt at hj ⊢
              rw [e1, e2] at *
              simpa [List.getD_cons_succ] using hj
          · intro hAll
            have hpair := hAll 1 (by simp only [List.length_cons]; omega) (by omega)
            unfold linkedAt at hpair
            simp only [Nat.sub_self, List.getD_cons_succ, List.getD_cons_zero] at hpair
            have htail : ∀ i, i < (b :: rest).length → 1 ≤ i → linkedAt H (b :: rest) i := by
              intro j hj h1j
              obtain ⟨k, rfl⟩ : ∃ k, j = k + 1 := ⟨j - 1, by omega⟩
              have hk := hAll (k + 2) (by simp only [List.length_cons] at hj ⊢; omega) (by omega)
              have e1 : k + 2 - 1 = k + 1 := by omega
              have e2 : k + 1 - 1 = k := by omega
              unfold linkedAt at hk ⊢
              rw [e1] at hk
              rw [e2]
              simpa [List.getD_cons_succ] using hk
            simp only [chainOk, hpair.1, hpair.2, ne_eq, not_true_eq_false, if_false,
              ite_false]
            exact ih.mpr htail

theorem runOp_tx_ok {H : BlockData → String} {st st' : BCState} {s r : String}
    {a : Int} {t : Option String} (h : runOp H st (Op.tx s r a t) = some st') :
    ∃ i, new_transaction st s r a t = (TxOutcome.ok i, st') := by
  simp only [runOp] at h
  cases hnt : new_transaction st s r a t with
  | mk o st2 =>
      rw [hnt] at h
      cases o with
      | fail => simp at h
      | ok i =>
          simp only [Option.some.injEq] at h
          subst h
          exact ⟨i, rfl⟩
      | error => simp at h

theorem runOp_seal_ok {H : BlockData → String} {st st' : BCState} {p : Int}
    {ts : Nat} {ph : Option String} (h : runOp H st (Op.sealOp p ts ph) = some st') :
    ∃ b, new_block H st p ts ph = some (b, st') := by
  simp only [runOp] at h
  cases hnb : new_block H st p ts ph with
  | none => rw [hnb] at h; simp at h
  | some pr =>
      rw [hnb] at h
      simp only [Option.map_some', Option.some.injEq] at h
      exact ⟨pr.1, by rw [← h]⟩

theorem runOp_sum {H : BlockData → String} {st st' : BCState} {o : Op}
    (h : runOp H st o = some st') :
    sumBal st'.balances = sumBal st.balances + opAmountTeacher o := by
  cases o with
  | tx s r a t =>
      obtain ⟨i, hnt⟩ := runOp_tx_ok h
      obtain ⟨m1, hm1, hb, -, -, -, -⟩ := new_transaction_ok hnt
      have hsum : sumBal st'.balances = sumBal m1 + a := by
        rw [hb, sumBal_dset]; omega
      rcases hm1 with ⟨hT, rfl⟩ | ⟨hT, v, hlk, hav, rfl⟩
      · simp only [opAmountTeacher, if_pos hT]
        omega
      · have hdeb : sumBal (dset st.balances s (v - a)) = sumBal st.balances - a := by
          rw [sumBal_dset, dget_eq hlk]; omega
        simp only [opAmountTeacher, if_neg hT]
        omega
  | sealOp p ts ph =>
      obtain ⟨b, hnb⟩ := runOp_seal_ok h
      obtain ⟨hst, -, -, -⟩ := new_block_ok hnb
      subst hst
      simp [opAmountTeacher]

theorem runOp_nonneg {H : BlockData → String} {st st' : BCState} {o : Op}
    (hp : opPos o = true) (hm : AllNonNeg st.balances)
    (h : runOp H st o = some st') : AllNonNeg st'.balances := by
  cases o with
  | tx s r a t =>
      have ha : 0 < a := by simpa [opPos] using hp
      obtain ⟨i, hnt⟩ := runOp_tx_ok h
      obtain ⟨m1, hm1, hb, -, -, -, -⟩ := new_transaction_ok hnt
      have hm1n : AllNonNeg m1 := by
        rcases hm1 with ⟨hT, rfl⟩ | ⟨hT, v, hlk, hav, rfl⟩
        · exact hm
        · exact allNonNeg_dset hm (by omega)
      rw [hb]
      exact allNonNeg_dset hm1n (by have := dget_nonneg hm1n r; omega)
  | sealOp p ts ph =>
      obtain ⟨b, hnb⟩ := runOp_seal_ok h
      obtain ⟨hst, -, -, -⟩ := new_block_ok hnb
      subst hst
      exact hm

theorem runOp_teacherKey {H : BlockData → String} {st st' : BCState} {o : Op}
    (hr : opRecipNotTeacher o = true) (hm : dlookup st.balances "Teacher" = none)
    (h : runOp H st o = some st') : dlookup st'.balances "Teacher" = none := by
  cases o with
  | tx s r a t =>
      have hrT : r ≠ "Teacher" := by simpa [opRecipNotTeacher] using hr
      obtain ⟨i, hnt⟩ := runOp_tx_ok h
      obtain ⟨m1, hm1, hb, -, -, -, -⟩ := new_transaction_ok hnt
      have hm1T : dlookup m1 "Teacher" = none := by
        rcases hm1 with ⟨hT, rfl⟩ | ⟨hT, v, hlk, hav, rfl⟩
        · exact hm
        · rw [dlookup_dset_ne _ (Ne.symm hT)]
          exact hm
      rw [hb, dlookup_dset_ne _ (Ne.symm hrT)]
      exact hm1T
  | sealOp p ts ph =>
      obtain ⟨b, hnb⟩ := runOp_seal_ok h
      obtain ⟨hst, -, -, -⟩ := new_block_ok hnb
      subst hst
      exact hm

theorem runOps_sum {H : BlockData → String} : ∀ (ops : List Op) (st st' : BCState),
    runOps H st ops = some st' →
    sumBal st'.balances = sumBal st.balances + teacherIssued ops := by
  intro ops
  induction ops with
  | nil =>
      intro st st' h
      simp only [runOps, Option.some.injEq] at h
      subst h
      simp [teacherIssued]
  | cons o os ih =>
      intro st st' h
      simp only [runOps] at h
      cases ho : runOp H st o with
      | none => rw [ho] at h; simp at h
      | some st1 =>
          rw [ho] at h
          have h1 := runOp_sum ho
          have h2 := ih st1 st' h
          simp only [teacherIssued, List.map_cons, List.sum_cons] at h2 ⊢
          omega

theorem runOps_nonneg {H : BlockData → String} : ∀ (ops : List Op) (st st' : BCState),
    ops.all opPos = true → AllNonNeg st.balances →
    runOps H st ops = some st' → AllNonNeg st'.balances := by
  intro ops
  induction ops with
  | nil =>
      intro st st' _ hm h
      simp only [runOps, Option.some.injEq] at h
      subst h
      exact hm
  | cons o os ih =>
      intro st st' hall hm h
      simp only [List.all_cons, Bool.and_eq_true] at hall
      simp only [runOps] at h
      cases ho : runOp H st o with
      | none => rw [ho] at h; simp at h
      | some st1 =>
          rw [ho] at h
          exact ih st1 st' hall.2 (runOp_nonneg hall.1 hm ho) h

theorem runOps_teacherKey {H : BlockData → String} : ∀ (ops : List Op) (st st' : BCState),
    ops.all opRecipNotTeacher = true → dlookup st.balances "Teacher" = none →
    runOps H st ops = some st' → dlookup st'.balances "Teacher" = none := by
  intro ops
  induction ops with
  | nil =>
      intro st st' _ hm h
      simp only [runOps, Option.some.injEq] at h
      subst h
      exact hm
  | cons o os ih =>
      intro st st' hall hm h
      simp only [List.all_cons, Bool.and_eq_true] at hall
      simp only [runOps] at h
      cases ho : runOp H st o with
      | none => rw [ho] at h; simp at h
      | some st1 =>
          rw [ho] at h
          exact ih st1 st' hall.2 (runOp_teacherKey hall.1 hm ho) h

theorem init_eq (H : BlockData → String) (ts : Nat) :
    init H ts
      = ⟨[⟨⟨1, ts, [], 100, "1"⟩, H ⟨1, ts, [], 100, "1"⟩⟩], [], [], [], []⟩ := rfl

/-- Claim C1: if the sender is not the reserved issuer `"Teacher"` and the
sender's current balance (default 0) is less than the amount,
`new_transaction` returns the failure signal and performs no state
mutation — the returned state (pending buffer, balance table, reward
history, transfer history, chain) is exactly the state before the call. -/
theorem insufficient_balance_rejected (st : BCState) (s r : String) (a : Int)
    (t : Option String) (hs : s ≠ "Teacher") (hb : dget st.balances s 0 < a) :
    new_transaction st s r a t = (TxOutcome.fail, st) := by
  unfold new_transaction
  rw [if_pos ⟨hs, hb⟩]

/-- Witness for C1: a fresh engine rejects a 5-coin transfer from the unseen
sender `"Alice"` and the state is returned unchanged. -/
theorem insufficient_balance_rejected_witness :
    new_transaction (init demoHash 0) "Alice" "Bob" 5 none
      = (TxOutcome.fail, init demoHash 0) :=
  insufficient_balance_rejected (init demoHash 0) "Alice" "Bob" 5 none
    (by decide) (by decide)

/-- Claim C2: after every sequence of successful operations from a freshly
initialized engine, the sum of all balances in the balance table equals the
total amount issued by `"Teacher"` across the successful submissions whose
sender is `"Teacher"`. -/
theorem balance_conservation (H : BlockData → String) (ts : Nat) (ops : List Op)
    (st : BCState) (h : runOps H (init H ts) ops = some st) :
    sumBal st.balances = teacherIssued ops := by
  have hs := runOps_sum ops (init H ts) st h
  rw [init_eq] at hs
  simpa [sumBal] using hs

/-- Witness for C2: in the spec §8 scenario (Teacher issues 100 to Alice,
Alice transfers 40 to Bob, with sealing), the balances sum to the 100
issued. -/
theorem balance_conservation_witness :
    sumBal demoFinal.balances = teacherIssued opsDemo :=
  balance_conservation demoHash 0 opsDemo demoFinal rfl

/-- Counterexample to claim C3 as frozen: the run consisting of the single
successful submission of amount -5 from `"Teacher"` to `"Bob"` succeeds
(returns an index, not the failure signal) and leaves the non-issuer
`"Bob"` with the negative balance -5: the code never validates that the
amount is positive. -/
theorem nonneg_balances_cex :
    negRun = some negRunState ∧
    dlookup negRunState.balances "Bob" = some (-5) ∧ "Bob" ≠ "Teacher" :=
  ⟨rfl, rfl, by decide⟩

/-- Claim C3 amended: provided every submitted amount is positive, no
non-issuer participant's balance in the balance table is ever negative
after any sequence of successful operations from a fresh engine. -/
theorem nonneg_balances_pos (H : BlockData → String) (ts : Nat) (ops : List Op)
    (st : BCState) (hpos : ops.all opPos = true)
    (h : runOps H (init H ts) ops = some st) :
    ∀ p ∈ st.balances, p.1 ≠ "Teacher" → 0 ≤ p.2 := by
  have hall : AllNonNeg st.balances := by
    apply runOps_nonneg ops (init H ts) st hpos ?_ h
    rw [init_eq]
    intro p hp
    simp at hp
  intro p hp _
  exact hall p hp

/-- Witness for amended C3: in the demo scenario every balance entry is
either Teacher's or non-negative. -/
theorem nonneg_balances_pos_witness :
    demoFinal.balances.all (fun p => p.1 == "Teacher" || decide (0 ≤ p.2)) = true := by
  have h := nonneg_balances_pos demoHash 0 opsDemo demoFinal (by decide) rfl
  rw [List.all_eq_true]
  intro p hp
  by_cases hT : p.1 = "Teacher"
  · simp [hT]
  · simp only [Bool.or_eq_true, decide_eq_true_eq]
    exact Or.inr (h p hp hT)

/-- Claim C4: `is_chain_valid` returns true iff every adjacent pair of
blocks (i-1, i), for i from 1 to chain length - 1, satisfies both the
previous-hash link check and the recomputed-hash check for the later block;
in particular it returns true whenever the chain has zero or one block. The
embedded scan is a pure function of the state, so it mutates nothing; it
folds over the pairs in chain order, stopping false at the first mismatch. -/
theorem is_chain_valid_spec (H : BlockData → String) (st : BCState) :
    (is_chain_valid H st = true ↔
      ∀ i, i < st.chain.length → 1 ≤ i → linkedAt H st.chain i) ∧
    (st.chain.length ≤ 1 → is_chain_valid H st = true) := by
  constructor
  · exact chainOk_iff H st.chain
  · intro hlen
    apply (chainOk_iff H st.chain).mpr
    intro i h1 h2
    exact absurd h1 (by omega)

/-- Witness for C4: a fresh engine's one-block chain is reported valid. -/
theorem is_chain_valid_spec_witness :
    is_chain_valid demoHash (init demoHash 0) = true :=
  (is_chain_valid_spec demoHash (init demoHash 0)).2 (by decide)

/-- Claim C5: a freshly initialized engine has a chain of exactly one block
with index 1, previous_hash the literal `"1"`, proof 100 and an empty
transaction list, whose stored hash equals the digest recomputed over its
other fields, and the pending buffer, balance table and both histories are
empty. -/
theorem genesis_state (H : BlockData → String) (ts : Nat) :
    init H ts = ⟨[⟨⟨1, ts, [], 100, "1"⟩, H ⟨1, ts, [], 100, "1"⟩⟩], [], [], [], []⟩ ∧
    ((init H ts).chain.getD 0 default).hash
      = hashBlock H ((init H ts).chain.getD 0 default) :=
  ⟨rfl, rfl⟩

/-- Claim C6: every block produced by `new_block` stores as its hash exactly
the digest of its other fields (index, timestamp, transactions, proof,
previous_hash), so re-running `Blockchain.hash` on the unmodified sealed
block reproduces the stored hash. -/
theorem sealed_hash_determinism (H : BlockData → String) (st : BCState)
    (p : Int) (ts : Nat) (ph : Option String) (b : Block) (st' : BCState)
    (h : new_block H st p ts ph = some (b, st')) :
    b.hash = hashBlock H b :=
  (new_block_ok h).2.1

/-- Witness for C6: the block sealed on a fresh engine re-hashes to its
stored hash. -/
theorem sealed_hash_determinism_witness :
    demoSeal.1.hash = hashBlock demoHash demoSeal.1 :=
  sealed_hash_determinism demoHash (init demoHash 0) 123 1 none
    demoSeal.1 demoSeal.2 rfl

/-- Claim C7: a successful submission appends its transaction, at submission
time, to exactly one of the two histories: to the reward history (fields
teacher, student, amount) iff the sender is `"Teacher"`, otherwise to the
transfer history (fields from, to, amount); the other history is untouched
and the touched one grows only by appending, preserving insertion order. -/
theorem history_partition (st : BCState) (s r : String) (a : Int)
    (t : Option String) (i : Nat) (st' : BCState)
    (h : new_transaction st s r a t = (TxOutcome.ok i, st')) :
    (s = "Teacher" → st'.reward_history = st.reward_history ++ [⟨t, r, a⟩] ∧
      st'.transfer_history = st.transfer_history) ∧
    (s ≠ "Teacher" → st'.transfer_history = st.transfer_history ++ [⟨s, r, a⟩] ∧
      st'.reward_history = st.reward_history) := by
  obtain ⟨m1, -, -, -, -, hr, htr⟩ := new_transaction_ok h
  constructor
  · intro hT
    rw [hr, htr]
    simp [hT]
  · intro hT
    rw [hr, htr]
    simp [hT]

/-- Witness for C7: a teacher reward on a fresh engine lands in the reward
history and not in the transfer history. -/
theorem history_partition_witness :
    demoTx.2.reward_history = [⟨some "Ms", "Alice", 100⟩] ∧
    demoTx.2.transfer_history = [] := by
  have h := history_partition (init demoHash 0) "Teacher" "Alice" 100 (some "Ms")
    2 demoTx.2 rfl
  exact h.1 rfl

/-- Counterexample to claim C8 as frozen: on a fresh engine, submitting
amount 0 from the unseen non-issuer `"Alice"` passes the
insufficient-balance guard (0 < 0 is false) and then raises `KeyError` at
`self.balances["Alice"] -= 0` (app.py line 50), modelled as the `error`
outcome — so not every integer amount is handled without an exception. -/
theorem no_crash_cex :
    (new_transaction (init demoHash 0) "Alice" "Bob" 0 none).1 = TxOutcome.error := rfl

/-- Claim C8 amended: for every positive amount and every state whose chain
is non-empty (which holds in every state reachable from a fresh engine),
`new_transaction` returns a value — the failure signal or an index — and
never raises, and `new_block` never raises; `is_chain_valid` and the
lookups are total functions. -/
theorem no_crash_pos_amount (st : BCState) (s r : String) (a : Int)
    (t : Option String) (H : BlockData → String) (p : Int) (ts : Nat)
    (ph : Option String) (ha : 0 < a) (hc : st.chain ≠ []) :
    (new_transaction st s r a t).1 ≠ TxOutcome.error ∧
    (new_block H st p ts ph).isSome = true := by
  constructor
  · unfold new_transaction
    by_cases hg : s ≠ "Teacher" ∧ dget st.balances s 0 < a
    · rw [if_pos hg]
      simp
    · rw [if_neg hg]
      by_cases hT : s = "Teacher"
      · rw [if_pos hT]
        apply creditAndRecord_not_error
        simpa [appendPending] using hc
      · rw [if_neg hT]
        have hge : a ≤ dget st.balances s 0 := by
          push_neg at hg
          exact hg hT
        obtain ⟨v, hlk, -⟩ :=
          dlookup_some_of_dget_pos (show 0 < dget st.balances s 0 by omega)
        rw [hlk]
        apply creditAndRecord_not_error
        simpa [appendPending] using hc
  · unfold new_block
    cases hph : (if truthyStr ph then ph else (st.chain.getLast?).map (hashBlock H)) with
    | none =>
        exfalso
        by_cases htr : truthyStr ph = true
        · rw [if_pos htr] at hph
          cases ph with
          | none => simp [truthyStr] at htr
          | some s' => simp at hph
        · rw [if_neg htr] at hph
          obtain ⟨b, hb⟩ := getLast?_some_of_ne_nil hc
          rw [hb] at hph
          simp at hph
    | some pv => rfl

/-- Witness for amended C8: on a fresh engine a positive-amount submission
does not raise and sealing does not raise. -/
theorem no_crash_pos_amount_witness :
    (new_transaction (init demoHash 0) "Alice" "Bob" 5 none).1 ≠ TxOutcome.error ∧
    (new_block demoHash (init demoHash 0) 123 1 none).isSome = true :=
  no_crash_pos_amount (init demoHash 0) "Alice" "Bob" 5 none demoHash 123 1 none
    (by decide) (by decide)

/-- Counterexample to claim C9 as frozen: the successful submission
rewarding the identifier `"Teacher"` itself creates a balance-table entry
keyed `"Teacher"` — the credit at app.py line 51 applies to every
recipient, including `"Teacher"`. -/
theorem teacher_balance_cex :
    teacherRecipRun = some teacherRecipState ∧
    dlookup teacherRecipState.balances "Teacher" = some 5 :=
  ⟨rfl, rfl⟩

/-- Claim C9 amended: a submission whose sender is `"Teacher"` never debits
any balance — its only balance effect is crediting the recipient — and
after any successful run from a fresh engine in which no operation names
`"Teacher"` as recipient, the balance table contains no entry keyed
`"Teacher"`; such an entry can arise only from crediting `"Teacher"` as a
recipient. -/
theorem teacher_untracked (H : BlockData → String) (ts : Nat) (ops : List Op)
    (st : BCState) (hr : ops.all opRecipNotTeacher = true)
    (h : runOps H (init H ts) ops = some st) :
    dlookup st.balances "Teacher" = none ∧
    ∀ st0 : BCState, ∀ r : String, ∀ a : Int, ∀ t : Option String,
      (new_transaction st0 "Teacher" r a t).2.balances
        = dset st0.balances r (dget st0.balances r 0 + a) := by
  constructor
  · apply runOps_teacherKey ops (init H ts) st hr ?_ h
    rw [init_eq]
    rfl
  · intro st0 r a t
    unfold new_transaction
    rw [if_neg (by simp), if_pos rfl]
    unfold creditAndRecord
    rw [finishTx_snd, recordHist_balances]
    simp [creditBal, appendPending]

/-- Witness for amended C9: the demo scenario never pays `"Teacher"` and its
final balance table has no `"Teacher"` entry. -/
theorem teacher_untracked_witness :
    dlookup demoFinal.balances "Teacher" = none :=
  (teacher_untracked demoHash 0 opsDemo demoFinal (by decide) rfl).1

/-- Claim C10: `is_chain_valid` never recomputes the hash of the first
(genesis) block: any non-empty chain whose first block's stored hash
differs from the digest recomputed over its contents, but whose adjacent
pairs all satisfy both the link check and the recomputed-hash check for the
later block, is still reported valid. -/
theorem genesis_hash_unchecked (H : BlockData → String) (st : BCState)
    (_hne : st.chain ≠ [])
    (_hbad : (st.chain.getD 0 default).hash ≠ hashBlock H (st.chain.getD 0 default))
    (hpairs : ∀ i, i < st.chain.length → 1 ≤ i → linkedAt H st.chain i) :
    is_chain_valid H st = true :=
  (chainOk_iff H st.chain).mpr hpairs

/-- Witness for C10: a two-block chain whose genesis stored hash `"bogus"`
differs from its recomputation `"b1"` but whose second block links to the
stored value and re-hashes correctly is reported valid. -/
theorem genesis_hash_unchecked_witness :
    is_chain_valid demoHash badGenesisState = true :=
  genesis_hash_unchecked demoHash badGenesisState (by decide) (by decide) (by decide)

end EduCoin
